import Mathlib

/-!
# Verification of the gomail framing engine and dialogue steps

Shallow embedding of `src/main.go` (package main of eatonphil/gomail).
Buffers and payloads are modelled as `List Char` (the inputs of interest
are ASCII, where Go's byte indexing agrees with character indexing).
The transport is modelled as a list of chunks: each successful
`conn.Read` returns the next chunk; an exhausted chunk list models a
read that fails (EOF / transport error), which the Go code propagates
as a returned error.
-/

namespace Gomail

/-- The scan predicate of `readLine` (main.go line 56): position `i` ends a
line when `buf[i] == '\n' && i > 0 && buf[i-1] == '\r'`. -/
def lineEndAt (buf : List Char) (i : Nat) : Bool :=
  (buf.getD i 'X' == '\n') && decide (0 < i) && (buf.getD (i - 1) 'X' == '\r')

/-- The scan predicate of `readMultiLine` (main.go lines 70-74): position `i`
terminates a folded block when
`i > 1 && b != ' ' && b != '\t' && buf[i-2] == '\r' && buf[i-1] == '\n'`. -/
def foldEndAt (buf : List Char) (i : Nat) : Bool :=
  decide (1 < i) && !(buf.getD i 'X' == ' ') && !(buf.getD i 'X' == '\t') &&
    (buf.getD (i - 2) 'X' == '\r') && (buf.getD (i - 1) 'X' == '\n')

/-- `connection.isBodyClose` (main.go lines 98-105):
`i > 4 && buf[i-4] == '\r' && buf[i-3] == '\n' && buf[i-2] == '.' &&
buf[i-1] == '\r' && buf[i-0] == '\n'`. -/
def isBodyClose (buf : List Char) (i : Nat) : Bool :=
  decide (4 < i) && (buf.getD (i - 4) 'X' == '\r') && (buf.getD (i - 3) 'X' == '\n') &&
    (buf.getD (i - 2) 'X' == '.') && (buf.getD (i - 1) 'X' == '\r') &&
    (buf.getD i 'X' == '\n')

/-- First index `i < n` with `f i = true`, scanning upward from 0.  Models the
ascending `for i, b := range c.buf` scans of main.go, which act on the first
matching index. -/
def firstIdxBelow (f : Nat → Bool) : Nat → Option Nat
  | 0 => none
  | n + 1 =>
    match firstIdxBelow f n with
    | some i => some i
    | none => if f n then some n else none

/-- Result of one framing operation.  `ok payload buf chunks` carries the
returned string, the connection buffer after the call, and the transport
chunks not yet read.  `transportErr` is a failed `conn.Read` propagated as a
returned error; `hang` marks the one spot where the Go code would loop
forever without reading (the `noMoreReads` branch of `readMultiLine`). -/
inductive FrameResult where
  | ok (payload : List Char) (buf : List Char) (chunks : List (List Char))
  | transportErr
  | hang
deriving DecidableEq

/-- `connection.readLine` (main.go lines 45-64).  Each loop iteration first
performs one transport read and appends it, then scans the whole buffer for
the first CRLF; on a match at `i` it returns `buf[:i-1]` and keeps
`buf[i+1:]`.  Note the read happens *before* the scan, every iteration. -/
def readLine : List Char → List (List Char) → FrameResult
  | _, [] => .transportErr
  | buf, chunk :: rest =>
    let buf2 := buf ++ chunk
    match firstIdxBelow (lineEndAt buf2) buf2.length with
    | some i => .ok (buf2.take (i - 1)) (buf2.drop (i + 1)) rest
    | none => readLine buf2 rest

/-- The final value of `readMultiLine`'s `noMoreReads` flag when the scan
finishes without returning: it was assigned `c.isBodyClose(i)` at every index
and is therefore `isBodyClose` at the last index (`false` on an empty
buffer, matching the initializer). -/
def noMoreReadsFlag (buf : List Char) : Bool :=
  match buf.length with
  | 0 => false
  | n + 1 => isBodyClose buf n

/-- `connection.readMultiLine` (main.go lines 66-96).  Scans the current
buffer first; on a match at `i` it returns `buf[:i-2]` and keeps `buf[i:]`
(the terminating non-whitespace byte is retained).  With no match it reads
more data unless `noMoreReads` was left `true`, in which case the Go loop
re-scans the same buffer forever — modelled as `hang`. -/
def readMultiLine : List Char → List (List Char) → FrameResult
  | buf, [] =>
    match firstIdxBelow (foldEndAt buf) buf.length with
    | some i => .ok (buf.take (i - 2)) (buf.drop i) []
    | none => if noMoreReadsFlag buf then .hang else .transportErr
  | buf, chunk :: rest =>
    match firstIdxBelow (foldEndAt buf) buf.length with
    | some i => .ok (buf.take (i - 2)) (buf.drop i) (chunk :: rest)
    | none =>
      if noMoreReadsFlag buf then .hang
      else readMultiLine (buf ++ chunk) rest

/-- `connection.readToEndOfBody` (main.go lines 107-123).  Scans the current
buffer first; on the first `isBodyClose` match at `i` it returns
`buf[:i-4]` — and, unlike the other two operations, leaves `c.buf`
unchanged.  The `toRead` parameter is carried but never used, as in the
source.  With no match it reads one more chunk and rescans. -/
def readToEndOfBody : Nat → List Char → List (List Char) → FrameResult
  | _, buf, [] =>
    match firstIdxBelow (isBodyClose buf) buf.length with
    | some i => .ok (buf.take (i - 4)) buf []
    | none => .transportErr
  | toRead, buf, chunk :: rest =>
    match firstIdxBelow (isBodyClose buf) buf.length with
    | some i => .ok (buf.take (i - 4)) buf (chunk :: rest)
    | none => readToEndOfBody toRead (buf ++ chunk) rest

/-- Concatenation of transport chunks. -/
def concatAll : List (List Char) → List Char
  | [] => []
  | c :: cs => c ++ concatAll cs

/-- Auxiliary (spec-side) predicate: the five-byte body-close sentinel
`"\r\n.\r\n"` occurs in `buf` starting at offset `p`. -/
def sentinelAt (buf : List Char) (p : Nat) : Bool :=
  decide (p + 5 ≤ buf.length) && (buf.getD p 'X' == '\r') && (buf.getD (p + 1) 'X' == '\n') &&
    (buf.getD (p + 2) 'X' == '.') && (buf.getD (p + 3) 'X' == '\r') &&
    (buf.getD (p + 4) 'X' == '\n')

/-- The five sentinel bytes. -/
def sentinel : List Char := ['\r', '\n', '.', '\r', '\n']

/-! ## The dialogue-driver steps the claims mention (from `handle`) -/

/-- Outcome of the EHLO check in `handle` (main.go lines 159-164). -/
inductive EhloResult where
  | accepted (domain : List Char)
  | violation
  | panicOOR
deriving DecidableEq

/-- The EHLO step of `handle` (main.go lines 159-164): the guard is
`strings.HasPrefix(line, "EHLO")` — four characters, no space — and the
accepted branch slices `line[len("EHLO "):]`, i.e. `line[5:]`, which in Go
panics (slice out of range) when the line is shorter than 5 bytes. -/
def ehloStep (line : List Char) : EhloResult :=
  if ("EHLO".toList).isPrefixOf line then
    if 5 ≤ line.length then .accepted (line.drop 5) else .panicOOR
  else .violation

/-- `strings.SplitN(s, sep, 2)` for non-empty `sep`, as used by `handle`:
`some (before, after)` splits at the first occurrence of `sep`; `none`
when `sep` does not occur (Go then returns the one-element slice `[s]`,
so a subsequent `[1]` access panics). -/
def splitOnce (sep : List Char) : List Char → Option (List Char × List Char)
  | [] => if sep.isEmpty then some ([], []) else none
  | c :: cs =>
    if sep.isPrefixOf (c :: cs) then some ([], (c :: cs).drop sep.length)
    else
      match splitOnce sep cs with
      | some (pre, post) => some (c :: pre, post)
      | none => none

/-- `strings.ToUpper` restricted to the ASCII inputs of interest. -/
def toUpperL (l : List Char) : List Char := l.map Char.toUpper

/-- Value of an all-digit run for `strconv.Atoi`; `none` on the first
non-digit character. -/
def digitsValAux : Nat → List Char → Option Nat
  | acc, [] => some acc
  | acc, c :: cs =>
    if c.isDigit then digitsValAux (acc * 10 + (c.toNat - '0'.toNat)) cs else none

/-- Digits of a non-empty decimal numeral (`none` on empty input or any
non-digit). -/
def digitsVal (s : List Char) : Option Nat :=
  match s with
  | [] => none
  | _ :: _ => digitsValAux 0 s

/-- `strconv.Atoi`: optional sign then one or more decimal digits; anything
else is an error (modelled over unbounded `Int`; the claims use small
values, where Go's overflow check never fires). -/
def atoi (s : List Char) : Option Int :=
  match s with
  | '+' :: rest => (digitsVal rest).map (fun n => (n : Int))
  | '-' :: rest => (digitsVal rest).map (fun n => -(n : Int))
  | _ => (digitsVal s).map (fun n => (n : Int))

/-- Outcome of the SIZE extraction inside the MAIL FROM branch. -/
inductive SizeOutcome where
  | noUpdate
  | update (n : Int)
  | atoiErr
  | panicOOR
deriving DecidableEq

/-- The MAIL FROM size extraction of `handle` (main.go lines 225-236):
`afterFrom := strings.SplitN(smtpValue, "> ", 2)[1]` (panics when `"> "` is
absent); if `afterFrom` starts with `"SIZE="`, the rest
(`strings.SplitN(afterFrom, "SIZE=", 2)[1]`, which under the prefix guard is
`afterFrom[5:]`) goes through `strconv.Atoi`, whose error terminates the
connection; otherwise the size variable is left untouched. -/
def sizeFromValue (v : List Char) : SizeOutcome :=
  match splitOnce ("> ".toList) v with
  | none => .panicOOR
  | some (_, afterFrom) =>
    if ("SIZE=".toList).isPrefixOf afterFrom then
      match atoi (afterFrom.drop 5) with
      | some n => .update n
      | none => .atoiErr
    else .noUpdate

/-- Outcome of one command-loop iteration. -/
inductive CmdResult where
  | data
  | stored (key : List Char) (value : List Char) (sizeUpdate : SizeOutcome)
  | panicOOR
deriving DecidableEq

/-- One iteration of the command loop of `handle` (main.go lines 208-236):
split on the first `":"`, uppercase the keyword, branch on `DATA` first;
otherwise `pieces[1]` is read — a panic when the line has no colon — the
command is stored, and a `MAIL FROM` keyword additionally runs the SIZE
extraction. -/
def commandStep (line : List Char) : CmdResult :=
  match splitOnce [':'] line with
  | none =>
    if toUpperL line = "DATA".toList then .data else .panicOOR
  | some (k, v) =>
    let key := toUpperL k
    if key = "DATA".toList then .data
    else if key = "MAIL FROM".toList then .stored key v (sizeFromValue v)
    else .stored key v .noUpdate

/-- Substring occurrence test (spec-side), used to state "the value contains
no SIZE= token". -/
def containsSub (pat : List Char) : List Char → Bool
  | [] => pat.isEmpty
  | c :: cs => pat.isPrefixOf (c :: cs) || containsSub pat cs

/-! ## Scan-index characterization -/

theorem firstIdxBelow_none_aux {f : Nat → Bool} :
    ∀ {n : Nat}, firstIdxBelow f n = none → ∀ j, j < n → f j = false := by
  intro n
  induction n with
  | zero => intro _ j hj; omega
  | succ n ih =>
    intro h j hj
    cases hrec : firstIdxBelow f n with
    | some k => simp [firstIdxBelow, hrec] at h
    | none =>
      simp only [firstIdxBelow, hrec] at h
      cases hf : f n with
      | true => simp [hf] at h
      | false =>
        rcases Nat.lt_succ_iff_lt_or_eq.mp hj with hlt | rfl
        · exact ih hrec j hlt
        · exact hf

theorem firstIdxBelow_some {f : Nat → Bool} :
    ∀ {n i : Nat}, firstIdxBelow f n = some i →
      f i = true ∧ i < n ∧ ∀ j, j < i → f j = false := by
  intro n
  induction n with
  | zero => intro i h; simp [firstIdxBelow] at h
  | succ n ih =>
    intro i h
    cases hrec : firstIdxBelow f n with
    | some k =>
      simp only [firstIdxBelow, hrec, Option.some.injEq] at h
      subst h
      obtain ⟨h1, h2, h3⟩ := ih hrec
      exact ⟨h1, Nat.lt_succ_of_lt h2, h3⟩
    | none =>
      simp only [firstIdxBelow, hrec] at h
      cases hf : f n with
      | false => simp [hf] at h
      | true =>
        simp only [hf, if_true, Option.some.injEq] at h
        subst h
        exact ⟨hf, Nat.lt_succ_self _, firstIdxBelow_none_aux hrec⟩

theorem firstIdxBelow_eq_some_of {f : Nat → Bool} {n i : Nat}
    (hf : f i = true) (hin : i < n) (hmin : ∀ j, j < i → f j = false) :
    firstIdxBelow f n = some i := by
  induction n with
  | zero => omega
  | succ n ih =>
    rcases Nat.lt_succ_iff_lt_or_eq.mp hin with hlt | rfl
    · simp [firstIdxBelow, ih hlt]
    · have hnone : firstIdxBelow f i = none := by
        cases hrec : firstIdxBelow f i with
        | none => rfl
        | some k =>
          obtain ⟨hk, hki, -⟩ := firstIdxBelow_some hrec
          rw [hmin k hki] at hk
          exact absurd hk (by simp)
      simp [firstIdxBelow, hnone, hf]

theorem firstIdxBelow_eq_none_of {f : Nat → Bool} {n : Nat}
    (h : ∀ j, j < n → f j = false) : firstIdxBelow f n = none := by
  induction n with
  | zero => rfl
  | succ n ih =>
    have h1 := ih (fun j hj => h j (Nat.lt_succ_of_lt hj))
    simp [firstIdxBelow, h1, h n (Nat.lt_succ_self n)]

/-! ## List utilities -/

theorem take_succ_getD :
    ∀ (l : List Char) (n : Nat), n < l.length →
      l.take (n + 1) = l.take n ++ [l.getD n 'X']
  | [], n, h => by simp at h
  | a :: t, 0, _ => by simp [List.getD]
  | a :: t, n + 1, h => by
    have ih := take_succ_getD t n (by simp at h; omega)
    simp only [List.take_succ_cons, ih, List.getD_cons_succ]
    rfl

/-! ## Locality of the scan predicates: appending transport data never
changes a predicate's value at indices inside the old buffer. -/

theorem lineEndAt_append {buf t : List Char} {i : Nat} (h : i < buf.length) :
    lineEndAt (buf ++ t) i = lineEndAt buf i := by
  unfold lineEndAt
  rw [List.getD_append _ _ _ _ h, List.getD_append _ _ _ _ (by omega : i - 1 < buf.length)]

theorem foldEndAt_append {buf t : List Char} {i : Nat} (h : i < buf.length) :
    foldEndAt (buf ++ t) i = foldEndAt buf i := by
  unfold foldEndAt
  rw [List.getD_append _ _ _ _ h, List.getD_append _ _ _ _ (by omega : i - 2 < buf.length),
    List.getD_append _ _ _ _ (by omega : i - 1 < buf.length)]

theorem isBodyClose_append {buf t : List Char} {i : Nat} (h : i < buf.length) :
    isBodyClose (buf ++ t) i = isBodyClose buf i := by
  unfold isBodyClose
  rw [List.getD_append _ _ _ _ h, List.getD_append _ _ _ _ (by omega : i - 4 < buf.length),
    List.getD_append _ _ _ _ (by omega : i - 3 < buf.length),
    List.getD_append _ _ _ _ (by omega : i - 2 < buf.length),
    List.getD_append _ _ _ _ (by omega : i - 1 < buf.length)]

/-- The first scan match survives appending more data (new bytes only extend,
never shift, existing content — spec §4.1's rescanning argument). -/
theorem firstIdxBelow_append {P : List Char → Nat → Bool}
    (hloc : ∀ (l t : List Char) (j : Nat), j < l.length → P (l ++ t) j = P l j)
    {buf : List Char} (t : List Char) {i : Nat}
    (h : firstIdxBelow (P buf) buf.length = some i) :
    firstIdxBelow (P (buf ++ t)) (buf ++ t).length = some i := by
  obtain ⟨hf, hlen, hmin⟩ := firstIdxBelow_some h
  refine firstIdxBelow_eq_some_of ?_ ?_ ?_
  · rw [hloc buf t i hlen]; exact hf
  · simp only [List.length_append]; omega
  · intro j hj
    rw [hloc buf t j (by omega)]
    exact hmin j hj

/-! ## Predicate unpacking -/

theorem lineEndAt_iff {buf : List Char} {i : Nat} :
    lineEndAt buf i = true ↔
      buf.getD i 'X' = '\n' ∧ 0 < i ∧ buf.getD (i - 1) 'X' = '\r' := by
  simp [lineEndAt, and_assoc]

theorem foldEndAt_iff {buf : List Char} {i : Nat} :
    foldEndAt buf i = true ↔
      1 < i ∧ buf.getD i 'X' ≠ ' ' ∧ buf.getD i 'X' ≠ '\t' ∧
        buf.getD (i - 2) 'X' = '\r' ∧ buf.getD (i - 1) 'X' = '\n' := by
  simp [foldEndAt, and_assoc]

theorem isBodyClose_iff {buf : List Char} {i : Nat} :
    isBodyClose buf i = true ↔
      4 < i ∧ buf.getD (i - 4) 'X' = '\r' ∧ buf.getD (i - 3) 'X' = '\n' ∧
        buf.getD (i - 2) 'X' = '.' ∧ buf.getD (i - 1) 'X' = '\r' ∧
        buf.getD i 'X' = '\n' := by
  simp [isBodyClose, and_assoc]

theorem sentinelAt_iff {buf : List Char} {p : Nat} :
    sentinelAt buf p = true ↔
      p + 5 ≤ buf.length ∧ buf.getD p 'X' = '\r' ∧ buf.getD (p + 1) 'X' = '\n' ∧
        buf.getD (p + 2) 'X' = '.' ∧ buf.getD (p + 3) 'X' = '\r' ∧
        buf.getD (p + 4) 'X' = '\n' := by
  simp [sentinelAt, and_assoc]

/-! ## Delimiter decompositions at a successful match -/

theorem decomp_line {l : List Char} {i : Nat}
    (h : firstIdxBelow (lineEndAt l) l.length = some i) :
    l.take (i - 1) ++ '\r' :: '\n' :: l.drop (i + 1) = l := by
  obtain ⟨hf, hlen, -⟩ := firstIdxBelow_some h
  rw [lineEndAt_iff] at hf
  obtain ⟨hn, hpos, hr⟩ := hf
  obtain ⟨m, rfl⟩ : ∃ m, i = m + 1 := ⟨i - 1, by omega⟩
  simp only [Nat.add_sub_cancel] at hr ⊢
  have h1 : l.take (m + 1) = l.take m ++ [l.getD m 'X'] := take_succ_getD _ _ (by omega)
  have h2 : l.take (m + 2) = l.take (m + 1) ++ [l.getD (m + 1) 'X'] :=
    take_succ_getD _ _ (by omega)
  have h3 : l.take (m + 2) ++ l.drop (m + 2) = l := List.take_append_drop _ _
  rw [h2, h1, hr, hn] at h3
  simpa using h3

theorem decomp_fold {l : List Char} {i : Nat}
    (h : firstIdxBelow (foldEndAt l) l.length = some i) :
    l.take (i - 2) ++ '\r' :: '\n' :: l.drop i = l := by
  obtain ⟨hf, hlen, -⟩ := firstIdxBelow_some h
  rw [foldEndAt_iff] at hf
  obtain ⟨hpos, -, -, hr, hn⟩ := hf
  obtain ⟨m, rfl⟩ : ∃ m, i = m + 2 := ⟨i - 2, by omega⟩
  have em : m + 2 - 2 = m := by omega
  have em1 : m + 2 - 1 = m + 1 := by omega
  rw [em] at hr ⊢
  rw [em1] at hn
  have h1 : l.take (m + 1) = l.take m ++ [l.getD m 'X'] := take_succ_getD _ _ (by omega)
  have h2 : l.take (m + 2) = l.take (m + 1) ++ [l.getD (m + 1) 'X'] :=
    take_succ_getD _ _ (by omega)
  have h3 : l.take (m + 2) ++ l.drop (m + 2) = l := List.take_append_drop _ _
  rw [h2, h1, hr, hn] at h3
  simpa using h3

theorem decomp_body {l : List Char} {i : Nat}
    (h : firstIdxBelow (isBodyClose l) l.length = some i) :
    l.take (i - 4) ++ sentinel ++ l.drop (i + 1) = l := by
  obtain ⟨hf, hlen, -⟩ := firstIdxBelow_some h
  rw [isBodyClose_iff] at hf
  obtain ⟨hpos, c1, c2, c3, c4, c5⟩ := hf
  obtain ⟨m, rfl⟩ : ∃ m, i = m + 5 := ⟨i - 5, by omega⟩
  have e4 : m + 5 - 4 = m + 1 := by omega
  have e3 : m + 5 - 3 = m + 2 := by omega
  have e2 : m + 5 - 2 = m + 3 := by omega
  have e1 : m + 5 - 1 = m + 4 := by omega
  rw [e4] at c1 ⊢
  rw [e3] at c2
  rw [e2] at c3
  rw [e1] at c4
  have h1 : l.take (m + 2) = l.take (m + 1) ++ [l.getD (m + 1) 'X'] :=
    take_succ_getD _ _ (by omega)
  have h2 : l.take (m + 3) = l.take (m + 2) ++ [l.getD (m + 2) 'X'] :=
    take_succ_getD _ _ (by omega)
  have h3 : l.take (m + 4) = l.take (m + 3) ++ [l.getD (m + 3) 'X'] :=
    take_succ_getD _ _ (by omega)
  have h4 : l.take (m + 5) = l.take (m + 4) ++ [l.getD (m + 4) 'X'] :=
    take_succ_getD _ _ (by omega)
  have h5 : l.take (m + 6) = l.take (m + 5) ++ [l.getD (m + 5) 'X'] :=
    take_succ_getD _ _ (by omega)
  have h6 : l.take (m + 6) ++ l.drop (m + 6) = l := List.take_append_drop _ _
  rw [h5, h4, h3, h2, h1, c1, c2, c3, c4, c5] at h6
  simp only [sentinel]
  simpa using h6

/-! ## Definitional unfoldings of the reader loops -/

theorem concatAll_append :
    ∀ (u v : List (List Char)), concatAll (u ++ v) = concatAll u ++ concatAll v
  | [], _ => rfl
  | c :: u, v => by simp [concatAll, concatAll_append u v]

theorem readLine_cons (buf c : List Char) (rest : List (List Char)) :
    readLine buf (c :: rest) =
      match firstIdxBelow (lineEndAt (buf ++ c)) (buf ++ c).length with
      | some i => .ok ((buf ++ c).take (i - 1)) ((buf ++ c).drop (i + 1)) rest
      | none => readLine (buf ++ c) rest := rfl

theorem readMultiLine_eq (buf : List Char) (cs : List (List Char)) :
    readMultiLine buf cs =
      match firstIdxBelow (foldEndAt buf) buf.length with
      | some i => .ok (buf.take (i - 2)) (buf.drop i) cs
      | none =>
        if noMoreReadsFlag buf then .hang
        else
          match cs with
          | [] => .transportErr
          | chunk :: rest => readMultiLine (buf ++ chunk) rest := by
  cases cs <;> rfl

theorem readToEndOfBody_eq (t : Nat) (buf : List Char) (cs : List (List Char)) :
    readToEndOfBody t buf cs =
      match firstIdxBelow (isBodyClose buf) buf.length with
      | some i => .ok (buf.take (i - 4)) buf cs
      | none =>
        match cs with
        | [] => .transportErr
        | chunk :: rest => readToEndOfBody t (buf ++ chunk) rest := by
  cases cs <;> rfl

/-! ## Run lemmas: what a successful framing operation returns, in terms of
the full byte stream -/

/-- A successful `readLine` call consumed a prefix `used` of the chunk list,
its payload plus a CRLF plus the retained buffer reassemble exactly the
bytes seen, and the payload is what precedes the first CRLF of the whole
stream `buf ++ concatAll cs`. -/
theorem readLine_spec :
    ∀ {cs : List (List Char)} {buf p b : List Char} {r : List (List Char)},
      readLine buf cs = .ok p b r →
      ∃ used i,
        cs = used ++ r ∧
        p ++ '\r' :: '\n' :: b = buf ++ concatAll used ∧
        firstIdxBelow (lineEndAt (buf ++ concatAll cs))
            (buf ++ concatAll cs).length = some i ∧
        p = (buf ++ concatAll cs).take (i - 1) := by
  intro cs
  induction cs with
  | nil => intro buf p b r h; simp [readLine] at h
  | cons c rest ih =>
    intro buf p b r h
    rw [readLine_cons] at h
    split at h
    case h_1 i hscan =>
      rw [FrameResult.ok.injEq] at h
      obtain ⟨hp, hb, hr⟩ := h
      subst hp; subst hb; subst hr
      obtain ⟨-, hlen, -⟩ := firstIdxBelow_some hscan
      refine ⟨[c], i, by simp, ?_, ?_, ?_⟩
      · have := decomp_line hscan
        simpa [concatAll] using this
      · have := firstIdxBelow_append (fun l t j hj => lineEndAt_append hj)
          (concatAll rest) hscan
        simpa [concatAll, List.append_assoc] using this
      · rw [show buf ++ concatAll (c :: rest) = (buf ++ c) ++ concatAll rest by
          simp [concatAll]]
        exact (@List.take_append_of_le_length _ (buf ++ c) (concatAll rest) (i - 1)
          (by omega)).symm
    case h_2 hscan =>
      obtain ⟨used, i, hcs, hcons, hfirst, hp⟩ := ih h
      refine ⟨c :: used, i, by simp [hcs], ?_, ?_, ?_⟩
      · rw [hcons]; simp [concatAll]
      · rw [show buf ++ concatAll (c :: rest) = (buf ++ c) ++ concatAll rest by
          simp [concatAll]]
        exact hfirst
      · rw [show buf ++ concatAll (c :: rest) = (buf ++ c) ++ concatAll rest by
          simp [concatAll]]
        exact hp

/-- Buffer conservation for `readMultiLine`: payload plus CRLF plus retained
buffer reassemble the bytes seen (the terminating non-whitespace byte stays
at the head of the retained buffer). -/
theorem readMultiLine_spec :
    ∀ {cs : List (List Char)} {buf p b : List Char} {r : List (List Char)},
      readMultiLine buf cs = .ok p b r →
      ∃ used,
        cs = used ++ r ∧
        p ++ '\r' :: '\n' :: b = buf ++ concatAll used := by
  intro cs
  induction cs with
  | nil =>
    intro buf p b r h
    rw [readMultiLine_eq] at h
    split at h
    case h_1 i hscan =>
      rw [FrameResult.ok.injEq] at h
      obtain ⟨hp, hb, hr⟩ := h
      subst hp; subst hb; subst hr
      refine ⟨[], by simp, ?_⟩
      have := decomp_fold hscan
      simpa [concatAll] using this
    case h_2 hscan =>
      cases hflag : noMoreReadsFlag buf <;> simp [hflag] at h
  | cons c rest ih =>
    intro buf p b r h
    rw [readMultiLine_eq] at h
    split at h
    case h_1 i hscan =>
      rw [FrameResult.ok.injEq] at h
      obtain ⟨hp, hb, hr⟩ := h
      subst hp; subst hb; subst hr
      refine ⟨[], by simp, ?_⟩
      have := decomp_fold hscan
      simpa [concatAll] using this
    case h_2 hscan =>
      cases hflag : noMoreReadsFlag buf with
      | true => simp [hflag] at h
      | false =>
        rw [if_neg (by simp [hflag])] at h
        obtain ⟨used, hcs, hcons⟩ := ih h
        refine ⟨c :: used, by simp [hcs], ?_⟩
        rw [hcons]; simp [concatAll]

/-- A successful `readToEndOfBody` call returns the bytes before the first
body-close match of the whole stream, and retains the *unconsumed* buffer
`b` equal to everything read so far (the source never advances `c.buf`
here). -/
theorem readToEndOfBody_spec :
    ∀ {cs : List (List Char)} {t : Nat} {buf p b : List Char} {r : List (List Char)},
      readToEndOfBody t buf cs = .ok p b r →
      ∃ used i,
        cs = used ++ r ∧
        b = buf ++ concatAll used ∧
        firstIdxBelow (isBodyClose b) b.length = some i ∧
        p = b.take (i - 4) ∧
        firstIdxBelow (isBodyClose (buf ++ concatAll cs))
            (buf ++ concatAll cs).length = some i ∧
        p = (buf ++ concatAll cs).take (i - 4) := by
  intro cs
  induction cs with
  | nil =>
    intro t buf p b r h
    rw [readToEndOfBody_eq] at h
    split at h
    case h_1 i hscan =>
      rw [FrameResult.ok.injEq] at h
      obtain ⟨hp, hb, hr⟩ := h
      subst hp; subst hb; subst hr
      obtain ⟨-, hlen, -⟩ := firstIdxBelow_some hscan
      exact ⟨[], i, by simp, by simp [concatAll], by simpa [concatAll] using hscan,
        rfl, by simpa [concatAll] using hscan, by simp [concatAll]⟩
    case h_2 hscan => simp at h
  | cons c rest ih =>
    intro t buf p b r h
    rw [readToEndOfBody_eq] at h
    split at h
    case h_1 i hscan =>
      rw [FrameResult.ok.injEq] at h
      obtain ⟨hp, hb, hr⟩ := h
      subst hp; subst hb; subst hr
      obtain ⟨-, hlen, -⟩ := firstIdxBelow_some hscan
      refine ⟨[], i, by simp, by simp [concatAll], by simpa [concatAll] using hscan,
        rfl, ?_, ?_⟩
      · have := firstIdxBelow_append (fun l t j hj => isBodyClose_append hj)
          (concatAll (c :: rest)) hscan
        exact this
      · rw [List.take_append_of_le_length (by omega)]
    case h_2 hscan =>
      obtain ⟨used, i, hcs, hbuf, hfirstb, hp, hfirst, hptot⟩ := ih h
      refine ⟨c :: used, i, by simp [hcs], ?_, hfirstb, hp, ?_, ?_⟩
      · rw [hbuf]; simp [concatAll]
      · rw [show buf ++ concatAll (c :: rest) = (buf ++ c) ++ concatAll rest by
          simp [concatAll]]
        exact hfirst
      · rw [show buf ++ concatAll (c :: rest) = (buf ++ c) ++ concatAll rest by
          simp [concatAll]]
        exact hptot

/-! ## Claim theorems -/

/-- C1, counterexample: the claim says that with `"A\r\nB\r\n"` already
buffered from a single transport read, the second `readLine` call returns
`"B"` without performing any further transport read.  In the code the second
call performs a transport read *first*: with no further read available it
returns a transport error instead of `"B"`. -/
theorem C1_counterexample :
    readLine [] ["A\r\nB\r\n".toList] = .ok "A".toList "B\r\n".toList [] ∧
    readLine "B\r\n".toList [] = .transportErr := by decide

/-- C1, amended: `readLine` performs one transport read at the start of every
call, before scanning, even when the buffer already holds a complete line.
With `"A\r\nB\r\n"` delivered by the first call's read, the first call
returns `"A"` and retains `"B\r\n"`; the second call returns `"B"` only
after one more transport read (of arbitrary, possibly empty, content), and
fails if no further read is available.  Lines are still yielded in order
without loss. -/
theorem C1_amended_read_before_scan :
    readLine [] ["A\r\nB\r\n".toList] = .ok "A".toList "B\r\n".toList [] ∧
    readLine "B\r\n".toList [] = .transportErr ∧
    ∀ extra : List Char, readLine "B\r\n".toList [extra] = .ok "B".toList extra [] := by
  refine ⟨by decide, by decide, ?_⟩
  intro extra
  have e : "B\r\n".toList ++ extra = 'B' :: '\r' :: '\n' :: extra := rfl
  have hscan : firstIdxBelow (lineEndAt ('B' :: '\r' :: '\n' :: extra))
      ('B' :: '\r' :: '\n' :: extra).length = some 2 :=
    firstIdxBelow_eq_some_of rfl (by simp only [List.length_cons]; omega)
      (by intro j hj; interval_cases j <;> rfl)
  rw [readLine_cons, e, hscan]
  rfl

/-- C2, counterexample: after `readToEndOfBody` returns the body payload
`"X"`, the claim says the buffer no longer contains the payload bytes or the
five-byte sentinel; in the code the buffer is left completely unchanged and
still holds both (the sentinel still occurs at offset 1 of the retained
buffer). -/
theorem C2_counterexample :
    readToEndOfBody 0 "X\r\n.\r\nZ".toList [] =
      .ok "X".toList "X\r\n.\r\nZ".toList [] ∧
    sentinelAt "X\r\n.\r\nZ".toList 1 = true := by decide

/-- C2, amended: `readLine` and `readMultiLine` remove exactly the consumed
prefix — payload plus the CRLF delimiter — from the front of the buffer
(`readMultiLine` retains the terminating non-whitespace byte), so the
retained buffer holds exactly the bytes after the delimiter; but a
successful `readToEndOfBody` leaves the buffer unchanged: the retained
buffer equals everything read so far and still starts with the payload
followed by the sentinel. -/
theorem C2_amended_buffer_conservation :
    (∀ buf cs p b r, readLine buf cs = .ok p b r →
      ∃ used, cs = used ++ r ∧ p ++ '\r' :: '\n' :: b = buf ++ concatAll used) ∧
    (∀ buf cs p b r, readMultiLine buf cs = .ok p b r →
      ∃ used, cs = used ++ r ∧ p ++ '\r' :: '\n' :: b = buf ++ concatAll used) ∧
    (∀ t buf cs p b r, readToEndOfBody t buf cs = .ok p b r →
      ∃ used tail, cs = used ++ r ∧ b = buf ++ concatAll used ∧
        b = p ++ sentinel ++ tail) := by
  refine ⟨?_, ?_, ?_⟩
  · intro buf cs p b r h
    obtain ⟨used, i, hcs, hcons, -, -⟩ := readLine_spec h
    exact ⟨used, hcs, hcons⟩
  · intro buf cs p b r h
    obtain ⟨used, hcs, hcons⟩ := readMultiLine_spec h
    exact ⟨used, hcs, hcons⟩
  · intro t buf cs p b r h
    obtain ⟨used, i, hcs, hbuf, hfirstb, hp, -, -⟩ := readToEndOfBody_spec h
    refine ⟨used, b.drop (i + 1), hcs, hbuf, ?_⟩
    rw [hp]
    exact (decomp_body hfirstb).symm

/-- Witness for C2 (amended), instantiating all three conjuncts at concrete
buffers. -/
theorem C2_amended_buffer_conservation_witness :
    (∃ used, (["A\r\nB\r\n".toList] : List (List Char)) = used ++ [] ∧
      "A".toList ++ '\r' :: '\n' :: "B\r\n".toList =
        ([] : List Char) ++ concatAll used) ∧
    (∃ used, ([] : List (List Char)) = used ++ [] ∧
      "Subject: hi\r\n  there".toList ++ '\r' :: '\n' :: "\r\n".toList =
        "Subject: hi\r\n  there\r\n\r\n".toList ++ concatAll used) ∧
    (∃ used tail, ([] : List (List Char)) = used ++ [] ∧
      "X\r\n.\r\nZ".toList = "X\r\n.\r\nZ".toList ++ concatAll used ∧
      "X\r\n.\r\nZ".toList = "X".toList ++ sentinel ++ tail) :=
  ⟨C2_amended_buffer_conservation.1 [] ["A\r\nB\r\n".toList] "A".toList
      "B\r\n".toList [] (by decide),
   C2_amended_buffer_conservation.2.1 "Subject: hi\r\n  there\r\n\r\n".toList []
      "Subject: hi\r\n  there".toList "\r\n".toList [] (by decide),
   C2_amended_buffer_conservation.2.2 0 "X\r\n.\r\nZ".toList []
      "X".toList "X\r\n.\r\nZ".toList [] (by decide)⟩

/-- C3, counterexample: on `"Subject: hi\r\n  there\r\n\r\n"` the claim says
`readMultiLine` returns the unfolded logical line `"Subject: hi  there"`
with no embedded CRLF; the code returns the raw bytes
`"Subject: hi\r\n  there"`, which differ from the claimed payload (the
continuation's CRLF and leading whitespace are kept verbatim). -/
theorem C3_counterexample :
    readMultiLine "Subject: hi\r\n  there\r\n\r\n".toList [] =
      .ok "Subject: hi\r\n  there".toList "\r\n".toList [] ∧
    "Subject: hi\r\n  there".toList ≠ "Subject: hi  there".toList := by decide

/-- C3, amended: the folded block is returned raw, not unfolded: the payload
is `"Subject: hi\r\n  there"` (continuation CRLF and whitespace kept), with
`"\r\n"` retained in the buffer.  A subsequent call returns the empty
payload only once a byte that is not space/tab follows the blank line (here
the body's first bytes); with no further input it instead attempts another
transport read, which fails. -/
theorem C3_amended_raw_folding :
    readMultiLine "Subject: hi\r\n  there\r\n\r\n".toList [] =
      .ok "Subject: hi\r\n  there".toList "\r\n".toList [] ∧
    readMultiLine "\r\n".toList [] = .transportErr ∧
    readMultiLine "\r\n".toList ["body text\r\n.\r\n".toList] =
      .ok [] "body text\r\n.\r\n".toList [] := by decide

/-- C4: the claim says a first line not beginning with the literal `"EHLO"`
followed by a space fails with a protocol violation.  The code only checks
the four-character prefix `"EHLO"` and then slices `line[len("EHLO "):]`:
`"EHLOX"` is accepted with client domain `""`, exactly `"EHLO"` panics
(slice out of range) instead of returning an error, while `"EHLO "`-prefixed
lines and non-`EHLO` lines behave as claimed. -/
theorem C4_bug_ehlo_prefix :
    ehloStep "EHLOX".toList = .accepted [] ∧
    ehloStep "EHLO".toList = .panicOOR ∧
    ehloStep "EHLO client.example".toList = .accepted "client.example".toList ∧
    ehloStep "HELO x".toList = .violation := by decide

/-- C5: the claim says a non-`DATA` command line with no colon yields an
ordinary returned `ProtocolViolation`.  The code indexes `pieces[1]` of a
one-element `SplitN` result, which panics (index out of range) rather than
returning an error.  A colon-less `"data"` line is still routed to the DATA
branch (keyword uppercased before the check), and well-formed command lines
are stored. -/
theorem C5_bug_no_colon_panics :
    commandStep "NOOP".toList = .panicOOR ∧
    commandStep "data".toList = .data ∧
    commandStep "RCPT TO:<a@b.com>".toList =
      .stored "RCPT TO".toList "<a@b.com>".toList .noUpdate := by decide

/-- C9, counterexample: the claim says any split of the input into transport
reads yields the same payload sequence as a single read.  Feeding
`"A\r\nB\r\n"` as one read, the second `readLine` call fails (it always
reads before scanning, and no read is left); fed as two reads, the second
call returns `"B"` — the sequences differ. -/
theorem C9_counterexample :
    readLine [] ["A\r\nB\r\n".toList] = .ok "A".toList "B\r\n".toList [] ∧
    readLine "B\r\n".toList [] = .transportErr ∧
    readLine [] ["A\r\n".toList, "B\r\n".toList] = .ok "A".toList [] ["B\r\n".toList] ∧
    readLine [] ["B\r\n".toList] = .ok "B".toList [] [] := by decide

/-- C9, amended: the payload of a successful `readLine` call depends only on
the concatenation of the buffered bytes and the transport chunks — it is
always the content before the first CRLF of that stream — so two splits of
the same input that both succeed return the same payload, and the concrete
example `"EHLO x\r\n"` yields `"EHLO x"` fed as one read or as the three
reads `"EH"`, `"LO x\r"`, `"\n"`.  What a coarser split changes is only
whether a call succeeds at all, since every call consumes at least one
transport read. -/
theorem C9_amended_split_invariance :
    (readLine [] ["EHLO x\r\n".toList] = .ok "EHLO x".toList [] []) ∧
    (readLine [] ["EH".toList, "LO x\r".toList, "\n".toList] =
      .ok "EHLO x".toList [] []) ∧
    (∀ buf cs cs' p b r p' b' r', concatAll cs = concatAll cs' →
      readLine buf cs = .ok p b r → readLine buf cs' = .ok p' b' r' → p = p') := by
  refine ⟨by decide, by decide, ?_⟩
  intro buf cs cs' p b r p' b' r' hcat h h'
  obtain ⟨-, i, -, -, hfirst, hp⟩ := readLine_spec h
  obtain ⟨-, i', -, -, hfirst', hp'⟩ := readLine_spec h'
  rw [hcat] at hfirst hp
  rw [hfirst] at hfirst'
  obtain rfl : i = i' := by injection hfirst'
  rw [hp, hp']

/-- Witness for C9 (amended): the one-read and three-read splits of
`"EHLO x\r\n"` return equal payloads. -/
theorem C9_amended_split_invariance_witness :
    "EHLO x".toList = "EHLO x".toList :=
  C9_amended_split_invariance.2.2 [] ["EHLO x\r\n".toList]
    ["EH".toList, "LO x\r".toList, "\n".toList]
    "EHLO x".toList [] [] "EHLO x".toList [] []
    (by decide) (by decide) (by decide)

/-- Bridge: a body-close match at scan index `i` is a sentinel occurrence at
offset `i - 4`. -/
theorem isBodyClose_sentinelAt {buf : List Char} {i : Nat}
    (hi : 4 < i) (hlen : i < buf.length) (h : isBodyClose buf i = true) :
    sentinelAt buf (i - 4) = true := by
  rw [isBodyClose_iff] at h
  obtain ⟨-, c1, c2, c3, c4, c5⟩ := h
  obtain ⟨m, rfl⟩ : ∃ m, i = m + 5 := ⟨i - 5, by omega⟩
  have e4 : m + 5 - 4 = m + 1 := by omega
  have e3 : m + 5 - 3 = m + 2 := by omega
  have e2 : m + 5 - 2 = m + 3 := by omega
  have e1 : m + 5 - 1 = m + 4 := by omega
  rw [e4] at c1
  rw [e3] at c2
  rw [e2] at c3
  rw [e1] at c4
  rw [e4, sentinelAt_iff]
  exact ⟨by omega, c1, c2, c3, c4, c5⟩

/-- C6, counterexample: with the body-close sentinel already present in the
buffer (at offset 4 of `"H: v\r\n.\r\n"`), `readMultiLine` does return
without a transport read, but it reports the non-empty line `"H: v"`, not
the empty folded line the claim requires. -/
theorem C6_counterexample :
    sentinelAt "H: v\r\n.\r\n".toList 4 = true ∧
    readMultiLine "H: v\r\n.\r\n".toList [] =
      .ok "H: v".toList ".\r\n".toList [] ∧
    "H: v".toList ≠ ([] : List Char) := by decide

/-- C6, amended: whenever the body-close sentinel occurs anywhere in the
unconsumed buffer, `readMultiLine` returns without performing any transport
read (the chunk list is untouched) — because the sentinel's dot itself is a
fold-terminating position, the scan returns at or before it.  The payload
is the content before the first fold-terminating position, so it need not
be an empty folded line when header content precedes the sentinel; it is
empty whenever the buffer begins with a CRLF followed by a byte that is not
space or tab — which covers a sentinel at the front and, in particular, the
Dialogue Driver's header-termination buffers, where the blank line's CRLF
is immediately followed by the body's first byte or by the sentinel's
dot. -/
theorem C6_amended_sentinel_no_read :
    (∀ buf cs, (∃ p, sentinelAt buf p = true) →
      ∃ pay b, readMultiLine buf cs = .ok pay b cs) ∧
    (∀ (c : Char) (rest : List Char) cs, c ≠ ' ' → c ≠ '\t' →
      readMultiLine ('\r' :: '\n' :: c :: rest) cs =
        .ok [] (c :: rest) cs) := by
  constructor
  · intro buf cs hex
    obtain ⟨p, hp⟩ := hex
    rw [sentinelAt_iff] at hp
    obtain ⟨hlen, h0, h1, h2, h3, h4⟩ := hp
    have hfold : foldEndAt buf (p + 2) = true := by
      rw [foldEndAt_iff]
      refine ⟨by omega, ?_, ?_, ?_, ?_⟩
      · rw [h2]; decide
      · rw [h2]; decide
      · simpa using h0
      · simpa using h1
    cases hscan : firstIdxBelow (foldEndAt buf) buf.length with
    | none =>
      have := firstIdxBelow_none_aux hscan (p + 2) (by omega)
      rw [hfold] at this
      exact absurd this (by simp)
    | some i =>
      exact ⟨buf.take (i - 2), buf.drop i, by rw [readMultiLine_eq, hscan]⟩
  · intro c rest cs hsp htab
    have hfold : foldEndAt ('\r' :: '\n' :: c :: rest) 2 = true := by
      rw [foldEndAt_iff]
      exact ⟨by omega, hsp, htab, rfl, rfl⟩
    have hscan : firstIdxBelow (foldEndAt ('\r' :: '\n' :: c :: rest))
        ('\r' :: '\n' :: c :: rest).length = some 2 :=
      firstIdxBelow_eq_some_of hfold (by simp only [List.length_cons]; omega)
        (by intro j hj; interval_cases j <;> simp [foldEndAt])
    rw [readMultiLine_eq, hscan]
    rfl

/-- Witness for C6 (amended): both conjuncts instantiated — a buffer with the
sentinel at offset 4 yields a frame with the chunk list untouched, and a
buffer starting with the blank line's CRLF followed by the body's first
byte yields the empty folded line. -/
theorem C6_amended_sentinel_no_read_witness :
    (∃ pay b, readMultiLine "H: v\r\n.\r\n".toList [] = .ok pay b []) ∧
    readMultiLine ('\r' :: '\n' :: 'b' :: "ody\r\n.\r\n".toList) [] =
      .ok [] ('b' :: "ody\r\n.\r\n".toList) [] :=
  ⟨C6_amended_sentinel_no_read.1 "H: v\r\n.\r\n".toList [] ⟨4, by decide⟩,
   C6_amended_sentinel_no_read.2 'b' "ody\r\n.\r\n".toList [] (by decide) (by decide)⟩

/-- C7: SIZE extraction on the sender-declaration command value.
`"<user@mail.com> SIZE=3000"` stores the command and sets the declared size
to 3000; when the part after `"> "` contains no `"SIZE="` token the size is
not updated (it stays at the `var size int` default 0); a `"SIZE="` token
whose suffix `strconv.Atoi` rejects is a hard failure that terminates the
connection via an ordinary returned error. -/
theorem C7_size_extraction :
    commandStep "MAIL FROM:<user@mail.com> SIZE=3000".toList =
      .stored "MAIL FROM".toList "<user@mail.com> SIZE=3000".toList (.update 3000) ∧
    (∀ v pre post, splitOnce "> ".toList v = some (pre, post) →
      containsSub "SIZE=".toList post = false → sizeFromValue v = .noUpdate) ∧
    (∀ v pre post, splitOnce "> ".toList v = some (pre, post) →
      ("SIZE=".toList).isPrefixOf post = true → atoi (post.drop 5) = none →
      sizeFromValue v = .atoiErr) := by
  refine ⟨by decide, ?_, ?_⟩
  · intro v pre post hsplit hsub
    have hpre : ("SIZE=".toList).isPrefixOf post = false := by
      cases post with
      | nil => rfl
      | cons c cs =>
        cases hq : ("SIZE=".toList).isPrefixOf (c :: cs) with
        | false => rfl
        | true => rw [containsSub, hq] at hsub; simp at hsub
    unfold sizeFromValue
    simp only [hsplit]
    rw [hpre]
    simp
  · intro v pre post hsplit hpre hatoi
    unfold sizeFromValue
    simp only [hsplit]
    rw [hpre, hatoi]
    simp

/-- Witness for C7: a value whose post-`"> "` part is `"X"` (no SIZE token)
leaves the size untouched; `"SIZE=abc"` is the hard-failure path. -/
theorem C7_size_extraction_witness :
    sizeFromValue "<u@m> X".toList = .noUpdate ∧
    sizeFromValue "<u@m> SIZE=abc".toList = .atoiErr :=
  ⟨C7_size_extraction.2.1 "<u@m> X".toList "<u@m".toList "X".toList
      (by decide) (by decide),
   C7_size_extraction.2.2 "<u@m> SIZE=abc".toList "<u@m".toList "SIZE=abc".toList
      (by decide) (by decide) (by decide)⟩

/-- C8: the body terminates only at the exact five-byte `"\r\n.\r\n"`
sentinel.  The double-dot line in `"line1\r\n..\r\nx"` does not end the
body; whenever `readToEndOfBody` succeeds, its payload is followed in the
buffer by the exact sentinel; and the payload depends only on the
concatenated byte stream, not on how it was split into transport reads
(the match uses the previous four buffered bytes plus the current one). -/
theorem C8_body_sentinel_exact :
    (readToEndOfBody 0 "line1\r\n..\r\nx\r\n.\r\n".toList [] =
      .ok "line1\r\n..\r\nx".toList "line1\r\n..\r\nx\r\n.\r\n".toList []) ∧
    (∀ t buf cs p b r, readToEndOfBody t buf cs = .ok p b r →
      ∃ tail, b = p ++ sentinel ++ tail) ∧
    (∀ t t' buf cs cs' p b r p' b' r', concatAll cs = concatAll cs' →
      readToEndOfBody t buf cs = .ok p b r →
      readToEndOfBody t' buf cs' = .ok p' b' r' → p = p') := by
  refine ⟨by decide, ?_, ?_⟩
  · intro t buf cs p b r h
    obtain ⟨used, i, -, -, hfirstb, hp, -, -⟩ := readToEndOfBody_spec h
    exact ⟨b.drop (i + 1), by rw [hp]; exact (decomp_body hfirstb).symm⟩
  · intro t t' buf cs cs' p b r p' b' r' hcat h h'
    obtain ⟨-, i, -, -, -, -, hfirst, hp⟩ := readToEndOfBody_spec h
    obtain ⟨-, i', -, -, -, -, hfirst', hp'⟩ := readToEndOfBody_spec h'
    rw [hcat] at hfirst hp
    rw [hfirst] at hfirst'
    obtain rfl : i = i' := by injection hfirst'
    rw [hp, hp']

/-- Witness for C8: sentinel-exactness and split-invariance instantiated at
the double-dot body, fed whole and in three fragments. -/
theorem C8_body_sentinel_exact_witness :
    (∃ tail, "line1\r\n..\r\nx\r\n.\r\n".toList =
      "line1\r\n..\r\nx".toList ++ sentinel ++ tail) ∧
    "line1\r\n..\r\nx".toList = "line1\r\n..\r\nx".toList :=
  ⟨C8_body_sentinel_exact.2.1 0 [] ["line1\r\n..\r\nx\r\n.\r\n".toList]
      "line1\r\n..\r\nx".toList "line1\r\n..\r\nx\r\n.\r\n".toList [] (by decide),
   C8_body_sentinel_exact.2.2 0 0 [] ["line1\r\n..\r\nx\r\n.\r\n".toList]
      ["line1\r\n..".toList, "\r\nx\r\n.".toList, "\r\n".toList]
      "line1\r\n..\r\nx".toList "line1\r\n..\r\nx\r\n.\r\n".toList []
      "line1\r\n..\r\nx".toList "line1\r\n..\r\nx\r\n.\r\n".toList []
      (by decide) (by decide) (by decide)⟩

/-- C10: `isBodyClose` only ever matches at scan indices strictly greater
than 4, so a sentinel occupying offsets 0-4 of the unconsumed buffer is
never recognized: when the buffer's only sentinel occurrence starts at
offset 0, the body scan finds nothing, and `readToEndOfBody` performs
another transport read (failing outright when no read is available) instead
of returning the empty payload before that sentinel. -/
theorem C10_offset_zero_sentinel (buf : List Char)
    (_h0 : sentinelAt buf 0 = true)
    (hno : ∀ p, 0 < p → sentinelAt buf p = false) :
    (∀ b i, i ≤ 4 → isBodyClose b i = false) ∧
    (∀ i, i < buf.length → isBodyClose buf i = false) ∧
    readToEndOfBody 0 buf [] = .transportErr ∧
    (∀ t c r, readToEndOfBody t buf (c :: r) = readToEndOfBody t (buf ++ c) r) := by
  have hle : ∀ (b : List Char) (i : Nat), i ≤ 4 → isBodyClose b i = false := by
    intro b i hi
    have : decide (4 < i) = false := decide_eq_false (by omega)
    simp [isBodyClose, this]
  have hall : ∀ i, i < buf.length → isBodyClose buf i = false := by
    intro i hilen
    by_cases hi : 4 < i
    · cases hbc : isBodyClose buf i with
      | false => rfl
      | true =>
        have hs := isBodyClose_sentinelAt hi hilen hbc
        rw [hno (i - 4) (by omega)] at hs
        exact absurd hs (by simp)
    · exact hle buf i (by omega)
  have hnone : firstIdxBelow (isBodyClose buf) buf.length = none :=
    firstIdxBelow_eq_none_of hall
  refine ⟨hle, hall, ?_, ?_⟩
  · rw [readToEndOfBody_eq, hnone]
  · intro t c r
    rw [readToEndOfBody_eq, hnone]

/-- Witness for C10: the buffer that is exactly the five sentinel bytes —
the empty-body case — makes `readToEndOfBody` read again rather than
return, and fail when the transport has nothing more. -/
theorem C10_offset_zero_sentinel_witness :
    readToEndOfBody 0 ['\r', '\n', '.', '\r', '\n'] [] = .transportErr ∧
    readToEndOfBody 0 ['\r', '\n', '.', '\r', '\n'] [['x']] =
      readToEndOfBody 0 (['\r', '\n', '.', '\r', '\n'] ++ ['x']) [] := by
  have hno : ∀ p, 0 < p → sentinelAt ['\r', '\n', '.', '\r', '\n'] p = false := by
    intro p hp
    simp [sentinelAt]
    intro he
    exact absurd he (by omega)
  have h := C10_offset_zero_sentinel ['\r', '\n', '.', '\r', '\n'] (by decide) hno
  exact ⟨h.2.2.1, h.2.2.2 0 ['x'] []⟩

end Gomail
